import Mathlib

/-!
# Verification of the Spiritual Navigator session core (`src/app.py`)

This file gives a shallow embedding of the session state machine, prompt
handling and response parsers of `src/app.py` (a Streamlit front-end), and
proves/refutes the specification claims about them.

Conventions of the embedding:
* Python strings are Lean `String`s (lists of unicode scalar values);
  the regular expressions used by the source are modelled operationally,
  at the `List Char` level, with comments justifying each modelling step.
* The external generative-text service (`call_gemini`) is abstracted as an
  `Option String` response per call: `none` models an exception/failure
  (the source's `call_gemini` returns `None` after catching an exception),
  `some t` a returned text.  Python truthiness tests (`if response:`) are
  modelled as `t ≠ ""` on `some t` and false on `none`.
* Streamlit ambient session state (`st.session_state`) becomes an explicit
  `Session` record; a key that may be absent is an `Option` field.
-/

/-- Python's `\s` (whitespace class) on the characters this program can
encounter: space, tab, newline, carriage return, vertical tab, form feed.
(Python's `str` patterns also accept rarer Unicode whitespace; none of the
headings/markers involved here contain such characters, and sections are
quantified over arbitrary strings only through their non-whitespace
behaviour, so the ASCII set is the faithful fragment.)  Also models
Python's `str.strip()` character class. -/
def isPySpace (c : Char) : Bool :=
  c == ' ' || c == '\t' || c == '\n' || c == '\r' || c == '\x0b' || c == '\x0c'

/-- Python `str.strip()`: drop leading and trailing whitespace. -/
def pyStrip (xs : List Char) : List Char :=
  ((xs.dropWhile isPySpace).reverse.dropWhile isPySpace).reverse

/-- Index of the leftmost occurrence of `needle` in `hay` (as `re.search`
of a literal pattern would find it), `none` when there is no occurrence. -/
def firstOccur (needle : List Char) : List Char → Option Nat
  | [] => if needle.isPrefixOf ([] : List Char) then some 0 else none
  | c :: rest =>
    if needle.isPrefixOf (c :: rest) then some 0
    else (firstOccur needle rest).map (· + 1)

/-! ## The lineage parser: `parse_lineage_summaries`

Source:
```
def parse_lineage_summaries(text):
    if not text: return {}
    pattern = re.compile(r"\*\*(.*?)\*\*\s*:\s*(.*)", re.MULTILINE)
    matches = pattern.findall(text)
    return {match[0]: match[1] for match in matches}
```
`re.MULTILINE` only affects `^`/`$`, which do not occur, so it is inert.
The scan below is an operational model of `findall` for exactly this
pattern: leftmost matches, non-overlapping, resuming after each match.
-/

/-- Model of matching `\s*:\s*(.*)` at the head of `xs` (the part of the
lineage pattern after the closing `**`): greedily skip whitespace, require
a colon, greedily skip whitespace (note: `\s*` may cross newlines), then
capture greedily up to (excluding) the next newline, since `.` does not
match `\n` without `re.DOTALL`.  Returns (captured summary, rest of the
input starting at the character after the match).  No backtracking cases
are lost: the characters skipped by each `\s*` are whitespace, which can
never satisfy the following `:` or make a failing continuation succeed. -/
def tailPart (xs : List Char) : Option (List Char × List Char) :=
  match xs.dropWhile isPySpace with
  | c :: zs =>
    if c = ':' then
      let ws := zs.dropWhile isPySpace
      some (ws.takeWhile (fun ch => ch != '\n'), ws.dropWhile (fun ch => ch != '\n'))
    else none
  | [] => none

/-- Does `\*\*\s*:\s*(.*)` match at the head of `xs` (i.e. can the lazy
group `(.*?)` close here)? -/
def closeHere (xs : List Char) : Option (List Char × List Char) :=
  match xs with
  | c1 :: c2 :: ys => if c1 = '*' ∧ c2 = '*' then tailPart ys else none
  | _ => none

/-- Model of the lazy group `(.*?)\*\*\s*:\s*(.*)`: starting after the
opening `**`, try to close the bold heading at each position, shortest
first (this is exactly the backtracking order of a lazy quantifier), with
the accumulated group-1 text in `acc`; `(.*?)` cannot cross a newline.
Returns (name, summary, rest after the whole match). -/
def findClose (acc : List Char) : List Char → Option (List Char × List Char × List Char)
  | [] => none
  | c :: rest =>
    match closeHere (c :: rest) with
    | some (s, r) => some (acc, s, r)
    | none => if c = '\n' then none else findClose (acc ++ [c]) rest

/-- Try to match the whole pattern `\*\*(.*?)\*\*\s*:\s*(.*)` at the head
of `xs`. -/
def tryMatch (xs : List Char) : Option (List Char × List Char × List Char) :=
  match xs with
  | c1 :: c2 :: body => if c1 = '*' ∧ c2 = '*' then findClose [] body else none
  | _ => none

/-- One scanning pass of `re.findall`: attempt a match at each position
left to right; on a match, emit its two groups and resume after the match.
`fuel` only forces structural termination; it is initialised so that it
can never run out (each step consumes at least one input character). -/
def scanGo : Nat → List Char → List (List Char × List Char)
  | 0, _ => []
  | _ + 1, [] => []
  | fuel + 1, c :: rest =>
    match tryMatch (c :: rest) with
    | some (n, s, r) => (n, s) :: scanGo fuel r
    | none => scanGo fuel rest

/-- `re.findall(r"\*\*(.*?)\*\*\s*:\s*(.*)", ·)` as (group1, group2) pairs. -/
def scanMatches (xs : List Char) : List (List Char × List Char) :=
  scanGo (xs.length + 1) xs

/-- Insertion into a Python `dict` built by a comprehension: an existing
key keeps its (first-insertion) position but takes the new value; a new
key is appended. -/
def dictInsert (d : List (String × String)) (k v : String) : List (String × String) :=
  if d.any (fun p => p.1 == k) then
    d.map (fun p => if p.1 == k then (p.1, v) else p)
  else d ++ [(k, v)]

/-- `{match[0]: match[1] for match in matches}` as an insertion-ordered
association list. -/
def toDict (l : List (String × String)) : List (String × String) :=
  l.foldl (fun d p => dictInsert d p.1 p.2) []

/-- `parse_lineage_summaries` (src/app.py lines 78-82). -/
def parse_lineage_summaries (text : String) : List (String × String) :=
  if text = "" then []
  else toDict ((scanMatches text.data).map (fun p => (String.mk p.1, String.mk p.2)))

/-! ## The discover-more parser: `parse_discover_more`

Source (src/app.py lines 84-93): three `re.search` calls with `re.DOTALL`:
```
books_match  = re.search(r"### 📚 Books to Read\s*(.*?)(?=### 📍 Places to Visit)", text, re.DOTALL)
places_match = re.search(r"### 📍 Places to Visit\s*(.*?)(?=### 🎧 Music to Listen To)", text, re.DOTALL)
music_match  = re.search(r"### 🎧 Music to Listen To\s*(.*)", text, re.DOTALL)
```
For a pattern `H\s*(.*?)(?=L)` where the literals `H` and `L` begin with
the non-whitespace character `#`, `re.search` semantics reduce to:
take the leftmost occurrence of `H`; greedily skip whitespace after it;
the group is everything up to the first occurrence of `L` from there.
Justification of the reduction:
* the greedy `\s*` never has to backtrack: `L` starts with `#`, which is
  not whitespace, so no occurrence of `L` can begin strictly inside the
  maximal whitespace run;
* with `re.DOTALL`, `(.*?)` ranges over everything, and laziness picks
  the first occurrence of `L` at or after the group start;
* a later occurrence of `H` cannot succeed when the leftmost one fails:
  an occurrence of `L` after the later `H` lies after the leftmost `H` as
  well (again because `L` starts with a non-whitespace `#`, it cannot sit
  inside the whitespace run following the leftmost `H`).
For `H\s*(.*)` (the music pattern) the greedy group simply captures the
whole remainder after the whitespace run. -/

def hBooks : List Char := "### 📚 Books to Read".data

def hPlaces : List Char := "### 📍 Places to Visit".data

def hMusic : List Char := "### 🎧 Music to Listen To".data

/-- `re.search(H + r"\s*(.*?)(?=" + L + r")", hay, re.DOTALL)`, group 1. -/
def searchBetween (head lookahead hay : List Char) : Option (List Char) :=
  match firstOccur head hay with
  | none => none
  | some i =>
    let body := (hay.drop (i + head.length)).dropWhile isPySpace
    match firstOccur lookahead body with
    | none => none
    | some j => some (body.take j)

/-- `re.search(H + r"\s*(.*)", hay, re.DOTALL)`, group 1. -/
def searchAfter (head hay : List Char) : Option (List Char) :=
  match firstOccur head hay with
  | none => none
  | some i => some ((hay.drop (i + head.length)).dropWhile isPySpace)

/-- `parse_discover_more` (src/app.py lines 84-93), as an association list
in the source's insertion order; the empty input returns the empty dict. -/
def parse_discover_more (text : String) : List (String × String) :=
  if text = "" then []
  else
    let t := text.data
    let books :=
      match searchBetween hBooks hPlaces t with
      | some g => String.mk (pyStrip g)
      | none => "No recommendations found."
    let places :=
      match searchBetween hPlaces hMusic t with
      | some g => String.mk (pyStrip g)
      | none => "No recommendations found."
    let music :=
      match searchAfter hMusic t with
      | some g => String.mk (pyStrip g)
      | none => "No recommendations found."
    [("books", books), ("places", places), ("music", music)]

/-! ## The conclusion marker (src/app.py lines 172-173) -/

/-- The literal conclusion marker `"CONCLUSION:"`. -/
def markerChars : List Char := "CONCLUSION:".data

/-- Python `str.replace("CONCLUSION:", "")`: remove every non-overlapping
occurrence, scanning left to right and resuming after each removal.
`fuel` only forces structural termination (each step consumes at least one
character); it is initialised large enough never to run out. -/
def rmGo : Nat → List Char → List Char
  | 0, xs => xs
  | _ + 1, [] => []
  | fuel + 1, c :: rest =>
    if markerChars.isPrefixOf (c :: rest) then
      rmGo fuel ((c :: rest).drop markerChars.length)
    else c :: rmGo fuel rest

/-- `t.replace("CONCLUSION:", "")` on character lists. -/
def removeMarker (xs : List Char) : List Char := rmGo xs.length xs

/-! ## The session record and its operations (src/app.py lines 95-215) -/

/-- A chat role, `"user"` or `"model"`. -/
inductive Role where
  | user
  | model
  deriving DecidableEq, Repr

/-- One entry of `st.session_state.messages`; the source stores the text
as a one-element `parts` list, modelled as a single text field. -/
structure Message where
  role : Role
  text : String
  deriving DecidableEq, Repr

/-- The `st.session_state.stage` labels, as a closed enumeration. -/
inductive Stage where
  | start
  | choose_lineage
  | dialogue
  | final_summary
  deriving DecidableEq, Repr

/-- The ambient Streamlit session state as an explicit record. A field is
`none` when the corresponding key is absent from `st.session_state`
(`dialogue_started` is only ever absent or `True`, hence a `Bool`). -/
structure Session where
  stage : Stage
  vritti : Option String
  lineages : Option (List (String × String))
  chosen_lineage : Option String
  chosen_master : Option String
  messages : Option (List Message)
  dialogue_started : Bool
  final_summary : Option String
  discover_more_content : Option (List (String × String))
  deriving DecidableEq, Repr

/-- The state at process/session start (src/app.py lines 96-97): only
`stage` is set, to `"start"`. -/
def initSession : Session :=
  { stage := Stage.start
    vritti := none
    lineages := none
    chosen_lineage := none
    chosen_master := none
    messages := none
    dialogue_started := false
    final_summary := none
    discover_more_content := none }

/-- `restart_app` (src/app.py lines 99-101): delete every session key,
then set `stage = "start"`. -/
def restart_app (_ : Session) : Session :=
  { stage := Stage.start
    vritti := none
    lineages := none
    chosen_lineage := none
    chosen_master := none
    messages := none
    dialogue_started := false
    final_summary := none
    discover_more_content := none }

/-- The start-stage render plus "Begin Exploration" click (src/app.py
lines 109-115): the text area stores the typed topic verbatim into
`vritti`; the button handler advances to `choose_lineage` when the topic
is truthy (non-empty) and otherwise shows a validation warning.  The
returned `Bool` is whether the warning was shown. -/
def submitTopic (s : Session) (topic : String) : Session × Bool :=
  let s1 := { s with vritti := some topic }
  if topic = "" then (s1, true)
  else ({ s1 with stage := Stage.choose_lineage }, false)

/-- The "no paths" condition shown by the choose-lineage render
(src/app.py line 125: `if not st.session_state.get('lineages')`). -/
def noPathsShown (s : Session) : Bool :=
  match s.lineages with
  | none => true
  | some l => l.isEmpty

/-- One render of the choose-lineage stage's fetch block (src/app.py
lines 119-124): when the `lineages` key is absent, issue exactly one
service call with the lineage-discovery prompt; a truthy response is
parsed and stored (possibly as the empty mapping), a falsy one leaves the
key absent.  `resp` is the service's answer for the call, if one is made;
the returned `Nat` counts the service calls this render performed. -/
def chooseLineageEntry (s : Session) (resp : Option String) : Session × Nat :=
  if s.lineages.isSome then (s, 0)
  else
    match resp with
    | none => (s, 1)
    | some r =>
      if r = "" then (s, 1)
      else ({ s with lineages := some (parse_lineage_summaries r) }, 1)

/-- The "Explore this Path" button handler (src/app.py lines 134-137):
set `chosen_lineage` to the clicked option's name and move to the
dialogue stage. -/
def selectLineage (s : Session) (name : String) : Session :=
  { s with chosen_lineage := some name, stage := Stage.dialogue }

/-- The grounding message opening the dialogue history (src/app.py
line 151). -/
def seekerText (vritti lineage master : String) : String :=
  "I am a seeker exploring \x27" ++ vritti ++
    "\x27. I have chosen the path of \x27" ++ lineage ++
    "\x27. As a guide inspired by the teachings of " ++ master ++
    ", please begin our contemplative dialogue by asking me your first question."

/-- The dialogue-stage initialisation block (src/app.py lines 145-158),
run while the `dialogue_started` key is absent: call the service for a
master; on a truthy reply, store its stripped text as `chosen_master`,
seed `messages` with the grounding user turn and call for the first
question (a truthy first question is appended and `dialogue_started`
set); on a falsy master reply, show an error and fall back to the
choose-lineage stage. -/
def dialogueEntry (s : Session) (masterResp firstQ : Option String) : Session :=
  if s.dialogue_started then s
  else
    match masterResp with
    | none => { s with stage := Stage.choose_lineage }
    | some m =>
      if m = "" then { s with stage := Stage.choose_lineage }
      else
        let master := String.mk (pyStrip m.data)
        let seeker : Message :=
          { role := Role.user
            text := seekerText (s.vritti.getD "") (s.chosen_lineage.getD "") master }
        match firstQ with
        | none => { s with chosen_master := some master, messages := some [seeker] }
        | some q =>
          if q = "" then { s with chosen_master := some master, messages := some [seeker] }
          else
            { s with
                chosen_master := some master
                messages := some [seeker, { role := Role.model, text := q }]
                dialogue_started := true }

/-- The dialogue continuation handler (src/app.py lines 166-178): append
the user's reflection, send the continuation call; on a truthy reply that
(after `strip()`) starts with the conclusion marker, store the reply with
every marker occurrence removed and stripped as `final_summary` and move
to the final-summary stage; on any other truthy reply append it as a
model message; a falsy reply only shows an error. -/
def submitReflection (s : Session) (userText : String) (resp : Option String) : Session :=
  let withUser :=
    { s with messages := some (s.messages.getD [] ++ [{ role := Role.user, text := userText }]) }
  match resp with
  | none => withUser
  | some t =>
    if t = "" then withUser
    else if markerChars.isPrefixOf (pyStrip t.data) then
      { withUser with
          final_summary := some (String.mk (pyStrip (removeMarker t.data)))
          stage := Stage.final_summary }
    else
      { withUser with
          messages := some ((withUser.messages.getD []) ++ [{ role := Role.model, text := t }]) }

/-- The start-stage render's unconditional text-area assignment
(src/app.py line 109): every render of the start stage stores the typed
text into `vritti`, whether or not the button is clicked (`submitTopic`
models the render WITH a click, this the render without one). -/
def startRender (s : Session) (typed : String) : Session :=
  { s with vritti := some typed }

/-- The final-summary stage's discover-more fetch block (src/app.py
lines 195-200): when the `discover_more_content` key is absent, issue
exactly one service call with the discover-more prompt; a truthy response
is parsed with `parse_discover_more` and stored, a falsy one leaves the
key absent.  The returned `Nat` counts the service calls this render
performed. -/
def finalSummaryEntry (s : Session) (resp : Option String) : Session × Nat :=
  if s.discover_more_content.isSome then (s, 0)
  else
    match resp with
    | none => (s, 1)
    | some r =>
      if r = "" then (s, 1)
      else ({ s with discover_more_content := some (parse_discover_more r) }, 1)

/-- The session states reachable from process start by the renders, user
actions and service responses the source can experience (one constructor
per state-mutating block of `src/app.py`). Guards record which stage
renders the block that fires each operation. -/
inductive Reachable : Session → Prop where
  | init : Reachable initSession
  | restart (s : Session) : Reachable s → Reachable (restart_app s)
  | start_render (s : Session) (typed : String) :
      Reachable s → s.stage = Stage.start → Reachable (startRender s typed)
  | submit (s : Session) (topic : String) :
      Reachable s → s.stage = Stage.start → Reachable (submitTopic s topic).1
  | lineage_entry (s : Session) (resp : Option String) :
      Reachable s → s.stage = Stage.choose_lineage →
      Reachable (chooseLineageEntry s resp).1
  | select (s : Session) (name summary : String) :
      Reachable s → s.stage = Stage.choose_lineage →
      (name, summary) ∈ s.lineages.getD [] → Reachable (selectLineage s name)
  | dlg_entry (s : Session) (mr fq : Option String) :
      Reachable s → s.stage = Stage.dialogue → s.dialogue_started = false →
      Reachable (dialogueEntry s mr fq)
  | reflect (s : Session) (u : String) (resp : Option String) :
      Reachable s → s.stage = Stage.dialogue → s.dialogue_started = true →
      Reachable (submitReflection s u resp)
  | final_entry (s : Session) (resp : Option String) :
      Reachable s → s.stage = Stage.final_summary →
      Reachable (finalSummaryEntry s resp).1

/-! ## Builders used to state round-trip properties -/

/-- One line of the documented lineage format: bold heading, colon,
one-line summary (`**name**: summary`). -/
def entryChars (n s : List Char) : List Char :=
  '*' :: '*' :: (n ++ '*' :: '*' :: ':' :: ' ' :: s)

/-- Newline-joined lineage lines. -/
def buildL : List (List Char × List Char) → List Char
  | [] => []
  | [(n, s)] => entryChars n s
  | (n, s) :: q :: rest => entryChars n s ++ '\n' :: buildL (q :: rest)

/-- Text built from a mapping in the documented bold-heading-colon-summary
format. -/
def buildLineageText (M : List (String × String)) : String :=
  String.mk (buildL (M.map (fun p => (p.1.data, p.2.data))))

/-- A well-formed three-section discover-more text: the three documented
headings in order, each followed by its section on the following lines. -/
def wfDiscover (b p m : String) : String :=
  "### 📚 Books to Read\n" ++ b ++ "\n### 📍 Places to Visit\n" ++ p ++
    "\n### 🎧 Music to Listen To\n" ++ m

/-- A discover-more text whose places heading is missing: books and music
headings only. -/
def wfDiscoverNoPlaces (b m : String) : String :=
  "### 📚 Books to Read\n" ++ b ++ "\n### 🎧 Music to Listen To\n" ++ m

/-- `noOccWindow needle fixed = true` certifies (decidably, for concrete
heading literals) that a match of `needle` can never begin inside `fixed`,
whatever follows `fixed`: every start offset hits a mismatch that lies
inside `fixed` itself. -/
def noOccWindow (needle fixed : List Char) : Bool :=
  (List.range fixed.length).all fun i =>
    (List.range needle.length).any fun k =>
      decide (i + k < fixed.length) && needle[k]? != fixed[i + k]?

/-- Conditions under which a (name, summary) pair can appear as one line of
the documented lineage format: the name contains no `*` (it is delimited by
`**`) and no newline, and the summary is a single non-empty line that does
not start with whitespace. -/
def goodPair (p : String × String) : Prop :=
  (∀ a ∈ p.1.data, ¬ a = '*') ∧ (∀ a ∈ p.1.data, ¬ a = '\n') ∧
    (∀ a ∈ p.2.data, ¬ a = '\n') ∧
    ¬ p.2.data = [] ∧ isPySpace (p.2.data.headD ' ') = false

instance (p : String × String) : Decidable (goodPair p) := by
  unfold goodPair
  infer_instance

/-! # Lemmas -/

/-! ## Toolkit: `List.isPrefixOf` and `firstOccur` -/

theorem isPrefixOf_append_self (l t : List Char) : l.isPrefixOf (l ++ t) = true := by
  induction l with
  | nil => simp [List.isPrefixOf]
  | cons c l ih => simp [List.isPrefixOf, ih]

theorem isPrefixOf_cons_of_ne {n0 : Char} {ntl : List Char} {c : Char} {zs : List Char}
    (h : ¬ c = n0) : (n0 :: ntl).isPrefixOf (c :: zs) = false := by
  simp [List.isPrefixOf]
  intro h'
  exact absurd h'.symm h

theorem getElem?_of_isPrefixOf {l₁ l₂ : List Char} (h : l₁.isPrefixOf l₂ = true)
    {k : Nat} (hk : k < l₁.length) : l₂[k]? = l₁[k]? := by
  induction l₁ generalizing l₂ k with
  | nil => simp at hk
  | cons a l₁ ih =>
    cases l₂ with
    | nil => simp [List.isPrefixOf] at h
    | cons b l₂ =>
      simp only [List.isPrefixOf, Bool.and_eq_true, beq_iff_eq] at h
      cases k with
      | zero => simp [h.1]
      | succ k =>
        simp only [List.getElem?_cons_succ]
        exact ih h.2 (by simpa using hk)

theorem firstOccur_cons_pos {needle : List Char} {c : Char} {rest : List Char}
    (h : needle.isPrefixOf (c :: rest) = true) :
    firstOccur needle (c :: rest) = some 0 := by
  simp [firstOccur, h]

theorem firstOccur_cons_neg {needle : List Char} {c : Char} {rest : List Char}
    (h : needle.isPrefixOf (c :: rest) = false) :
    firstOccur needle (c :: rest) = (firstOccur needle rest).map (· + 1) := by
  simp [firstOccur, h]

theorem firstOccur_self (needle ys : List Char) :
    firstOccur needle (needle ++ ys) = some 0 := by
  have hp : needle.isPrefixOf (needle ++ ys) = true := isPrefixOf_append_self needle ys
  cases h : needle ++ ys with
  | nil => simp only [List.append_eq_nil] at h
           simp [h.1, h.2, firstOccur, List.isPrefixOf]
  | cons c tl =>
    rw [h] at hp
    exact firstOccur_cons_pos hp

theorem firstOccur_append_of_no_occur (needle xs ys : List Char)
    (h : ∀ i, i < xs.length → needle.isPrefixOf ((xs ++ ys).drop i) = false) :
    firstOccur needle (xs ++ ys) = (firstOccur needle ys).map (· + xs.length) := by
  induction xs with
  | nil =>
    simp only [List.nil_append, List.length_nil]
    cases firstOccur needle ys <;> simp
  | cons c xs ih =>
    have h0 : needle.isPrefixOf (c :: (xs ++ ys)) = false := by
      have := h 0 (by simp)
      simpa using this
    rw [List.cons_append, firstOccur_cons_neg h0, ih]
    · cases firstOccur needle ys <;> simp [Nat.add_assoc]
    · intro i hi
      have := h (i + 1) (by simpa using Nat.succ_lt_succ hi)
      simpa [List.drop_succ_cons] using this

theorem no_occur_of_all_ne {needle : List Char} {n0 : Char} {ntl : List Char}
    (hne : needle = n0 :: ntl) (xs ys : List Char) (hxs : ∀ a ∈ xs, ¬ a = n0) :
    ∀ i, i < xs.length → needle.isPrefixOf ((xs ++ ys).drop i) = false := by
  intro i hi
  by_contra hcontra
  have hpre : needle.isPrefixOf ((xs ++ ys).drop i) = true := by
    simpa using hcontra
  have h0 : ((xs ++ ys).drop i)[0]? = needle[0]? :=
    getElem?_of_isPrefixOf hpre (by simp [hne])
  rw [List.getElem?_drop, Nat.add_zero, List.getElem?_append_left (by simpa using hi)] at h0
  have hn0 : needle[0]? = some n0 := by simp [hne]
  rw [hn0] at h0
  exact hxs _ (List.getElem?_mem h0) rfl

theorem no_occur_of_window {needle fixed : List Char}
    (hw : noOccWindow needle fixed = true) (ys : List Char) :
    ∀ i, i < fixed.length → needle.isPrefixOf ((fixed ++ ys).drop i) = false := by
  intro i hi
  by_contra hcontra
  have hpre : needle.isPrefixOf ((fixed ++ ys).drop i) = true := by
    simpa using hcontra
  have hw' := (List.all_eq_true.mp hw) i (List.mem_range.mpr hi)
  obtain ⟨k, hkmem, hk⟩ := List.any_eq_true.mp hw'
  have hklt : k < needle.length := List.mem_range.mp hkmem
  simp only [Bool.and_eq_true, decide_eq_true_eq, bne_iff_ne] at hk
  obtain ⟨hwin, hnech⟩ := hk
  have h1 : ((fixed ++ ys).drop i)[k]? = needle[k]? := getElem?_of_isPrefixOf hpre hklt
  rw [List.getElem?_drop, List.getElem?_append_left hwin] at h1
  exact hnech h1.symm

theorem firstOccur_none_of_all_ne {needle : List Char} {n0 : Char} {ntl : List Char}
    (hne : needle = n0 :: ntl) (xs : List Char) (hxs : ∀ a ∈ xs, ¬ a = n0) :
    firstOccur needle xs = none := by
  induction xs with
  | nil => simp [firstOccur, hne, List.isPrefixOf]
  | cons a xs ih =>
    have hpre : needle.isPrefixOf (a :: xs) = false := by
      rw [hne]
      exact isPrefixOf_cons_of_ne (hxs a (by simp))
    rw [firstOccur_cons_neg hpre, ih (fun b hb => hxs b (by simp [hb]))]
    rfl

/-- Window certificates, checked by evaluation, for the heading pairs the
discover-more proofs need: no match of the first heading can begin inside
the second. -/
theorem window_places_books : noOccWindow hPlaces hBooks = true := by decide

theorem window_music_books : noOccWindow hMusic hBooks = true := by decide

theorem window_music_places : noOccWindow hMusic hPlaces = true := by decide

theorem window_places_music : noOccWindow hPlaces hMusic = true := by decide

/-! ## Toolkit: lengths and fuel adequacy for the scanners -/

theorem length_dropWhile_le (p : Char → Bool) (l : List Char) :
    (l.dropWhile p).length ≤ l.length :=
  (List.dropWhile_sublist p).length_le

theorem tailPart_length {xs s r : List Char} (h : tailPart xs = some (s, r)) :
    r.length ≤ xs.length := by
  unfold tailPart at h
  split at h
  case h_2 => exact absurd h (by simp)
  case h_1 c zs heq =>
    split at h
    case isFalse => exact absurd h (by simp)
    case isTrue =>
      simp only [Option.some.injEq, Prod.mk.injEq] at h
      have h1 : r.length ≤ zs.length := by
        rw [← h.2]
        exact le_trans (length_dropWhile_le _ _) (length_dropWhile_le _ _)
      have h2 : (c :: zs).length ≤ xs.length := by
        rw [← heq]
        exact length_dropWhile_le _ _
      simp only [List.length_cons] at h2
      omega

theorem closeHere_length {xs s r : List Char} (h : closeHere xs = some (s, r)) :
    r.length ≤ xs.length := by
  unfold closeHere at h
  split at h
  case h_2 => exact absurd h (by simp)
  case h_1 c1 c2 ys =>
    split at h
    · have := tailPart_length h
      simp only [List.length_cons]
      omega
    · exact absurd h (by simp)

theorem findClose_length {xs : List Char} :
    ∀ {acc n s r : List Char}, findClose acc xs = some (n, s, r) → r.length ≤ xs.length := by
  induction xs with
  | nil => intro acc n s r h; exact absurd h (by simp [findClose])
  | cons c rest ih =>
    intro acc n s r h
    unfold findClose at h
    split at h
    case h_1 s' r' heq =>
      simp only [Option.some.injEq, Prod.mk.injEq] at h
      have := closeHere_length heq
      rw [h.2.2] at this
      exact this
    case h_2 =>
      split at h
      · exact absurd h (by simp)
      · have := ih h
        simp only [List.length_cons]
        omega

theorem tryMatch_length {xs n s r : List Char} (h : tryMatch xs = some (n, s, r)) :
    r.length + 2 ≤ xs.length := by
  unfold tryMatch at h
  split at h
  case h_2 => exact absurd h (by simp)
  case h_1 c1 c2 body =>
    split at h
    · have := findClose_length h
      simp only [List.length_cons]
      omega
    · exact absurd h (by simp)

theorem scanGo_eq : ∀ (f g : Nat) (xs : List Char),
    xs.length < f → xs.length < g → scanGo f xs = scanGo g xs := by
  intro f
  induction f with
  | zero => intro g xs hf; omega
  | succ f ih =>
    intro g xs hf hg
    cases g with
    | zero => omega
    | succ g =>
      cases xs with
      | nil => rfl
      | cons c rest =>
        simp only [scanGo]
        cases htm : tryMatch (c :: rest) with
        | none =>
          simp only [List.length_cons] at hf hg
          exact ih g rest (by omega) (by omega)
        | some v =>
          obtain ⟨n, s, r⟩ := v
          have hlen := tryMatch_length htm
          simp only [List.length_cons] at hf hg hlen
          show (n, s) :: scanGo f r = (n, s) :: scanGo g r
          rw [ih g r (by omega) (by omega)]

theorem scanMatches_cons_some {c : Char} {rest n s r : List Char}
    (h : tryMatch (c :: rest) = some (n, s, r)) :
    scanMatches (c :: rest) = (n, s) :: scanMatches r := by
  have hlen := tryMatch_length h
  simp only [List.length_cons] at hlen
  unfold scanMatches
  simp only [List.length_cons, scanGo, h]
  congr 1
  exact scanGo_eq _ _ r (by omega) (by omega)

theorem scanMatches_cons_none {c : Char} {rest : List Char}
    (h : tryMatch (c :: rest) = none) :
    scanMatches (c :: rest) = scanMatches rest := by
  unfold scanMatches
  simp only [List.length_cons, scanGo, h]

/-! ## Toolkit: `removeMarker` recurrences -/

theorem rmGo_eq : ∀ (f g : Nat) (xs : List Char),
    xs.length ≤ f → xs.length ≤ g → rmGo f xs = rmGo g xs := by
  intro f
  induction f with
  | zero =>
    intro g xs hf
    have : xs = [] := List.length_eq_zero.mp (by omega)
    subst this
    intro
    cases g <;> rfl
  | succ f ih =>
    intro g xs hf hg
    cases g with
    | zero =>
      have : xs = [] := List.length_eq_zero.mp (by omega)
      subst this
      rfl
    | succ g =>
      cases xs with
      | nil => rfl
      | cons c rest =>
        simp only [rmGo]
        by_cases hp : markerChars.isPrefixOf (c :: rest) = true
        · simp only [hp, if_true]
          have hd : ((c :: rest).drop markerChars.length).length ≤ rest.length := by
            simp only [List.length_drop, List.length_cons]
            have : 0 < markerChars.length := by decide
            omega
          simp only [List.length_cons] at hf hg
          exact ih g _ (by omega) (by omega)
        · simp only [Bool.not_eq_true] at hp
          simp only [hp, Bool.false_eq_true, if_false, List.cons.injEq, true_and]
          simp only [List.length_cons] at hf hg
          exact ih g rest (by omega) (by omega)

theorem removeMarker_nil : removeMarker [] = [] := rfl

theorem removeMarker_cons_pos {c : Char} {rest : List Char}
    (h : markerChars.isPrefixOf (c :: rest) = true) :
    removeMarker (c :: rest) = removeMarker ((c :: rest).drop markerChars.length) := by
  unfold removeMarker
  simp only [List.length_cons, rmGo, h, if_true]
  apply rmGo_eq
  · simp only [List.length_drop, List.length_cons]
    have : 0 < markerChars.length := by decide
    omega
  · exact Nat.le_refl _

theorem removeMarker_cons_neg {c : Char} {rest : List Char}
    (h : markerChars.isPrefixOf (c :: rest) = false) :
    removeMarker (c :: rest) = c :: removeMarker rest := by
  unfold removeMarker
  simp only [List.length_cons, rmGo, h, Bool.false_eq_true, if_false, List.cons.injEq, true_and]

/-- Characters skipped by a whitespace run are never the start of a
marker occurrence (`"CONCLUSION:"` starts with the non-whitespace `C`). -/
theorem removeMarker_space_append {w : List Char} (hw : ∀ a ∈ w, isPySpace a = true)
    (ys : List Char) : removeMarker (w ++ ys) = w ++ removeMarker ys := by
  induction w with
  | nil => rfl
  | cons a w ih =>
    have ha : ¬ a = 'C' := by
      intro hAC
      have := hw a (by simp)
      rw [hAC] at this
      simp [isPySpace] at this
    have hpre : markerChars.isPrefixOf (a :: (w ++ ys)) = false := by
      have : markerChars = 'C' :: "ONCLUSION:".data := by decide
      rw [this]
      exact isPrefixOf_cons_of_ne ha
    rw [List.cons_append, removeMarker_cons_neg hpre, ih (fun b hb => hw b (by simp [hb]))]
    simp

theorem removeMarker_marker_append (ys : List Char) :
    removeMarker (markerChars ++ ys) = removeMarker ys := by
  have hpre : markerChars.isPrefixOf (markerChars ++ ys) = true :=
    isPrefixOf_append_self _ _
  have hcons : markerChars ++ ys = 'C' :: ("ONCLUSION:".data ++ ys) := by
    have : markerChars = 'C' :: "ONCLUSION:".data := by decide
    rw [this]
    rfl
  rw [hcons] at hpre
  rw [hcons, removeMarker_cons_pos hpre, ← hcons, List.drop_left' (by decide)]

theorem removeMarker_of_no_occur {xs : List Char}
    (h : firstOccur markerChars xs = none) : removeMarker xs = xs := by
  induction xs with
  | nil => rfl
  | cons c rest ih =>
    by_cases hp : markerChars.isPrefixOf (c :: rest) = true
    · rw [firstOccur_cons_pos hp] at h
      exact absurd h (by simp)
    · simp only [Bool.not_eq_true] at hp
      rw [firstOccur_cons_neg hp] at h
      rw [Option.map_eq_none'] at h
      rw [removeMarker_cons_neg hp, ih h]

/-! ## Toolkit: the scanner on well-formed lineage text -/

theorem tailPart_shape {s rest : List Char}
    (hnl : ∀ a ∈ s, ¬ a = '\n')
    (hhd : ∃ c tl, s = c :: tl ∧ isPySpace c = false)
    (hrest : rest = [] ∨ ∃ r2, rest = '\n' :: r2) :
    tailPart (':' :: ' ' :: (s ++ rest)) = some (s, rest) := by
  obtain ⟨c, tl, hs, hc⟩ := hhd
  have h1 : (':' :: ' ' :: (s ++ rest)).dropWhile isPySpace = ':' :: (' ' :: (s ++ rest)) :=
    List.dropWhile_cons_of_neg (by simp [isPySpace])
  have h2 : (' ' :: (s ++ rest)).dropWhile isPySpace = s ++ rest := by
    rw [List.dropWhile_cons_of_pos (by simp [isPySpace]), hs, List.cons_append]
    exact List.dropWhile_cons_of_neg (by simp [hc])
  have hp : ∀ a ∈ s, (a != '\n') = true := by
    intro a ha
    simpa using hnl a ha
  have h3 : (s ++ rest).takeWhile (fun ch => ch != '\n') = s := by
    rw [List.takeWhile_append_of_pos hp]
    rcases hrest with h | ⟨r2, h⟩ <;> subst h
    · simp
    · rw [List.takeWhile_cons_of_neg (by simp)]
      simp
  have h4 : (s ++ rest).dropWhile (fun ch => ch != '\n') = rest := by
    rw [List.dropWhile_append_of_pos hp]
    rcases hrest with h | ⟨r2, h⟩ <;> subst h
    · rfl
    · exact List.dropWhile_cons_of_neg (by simp)
  simp [tailPart, h1, h2, h3, h4]

theorem closeHere_stars {ys : List Char} : closeHere ('*' :: '*' :: ys) = tailPart ys := by
  simp [closeHere]

theorem closeHere_not_star {c : Char} {ys : List Char} (h : ¬ c = '*') :
    closeHere (c :: ys) = none := by
  unfold closeHere
  cases ys with
  | nil => rfl
  | cons c2 ys => simp [h]

theorem findClose_cons_close {c : Char} {rest s r acc : List Char}
    (h : closeHere (c :: rest) = some (s, r)) :
    findClose acc (c :: rest) = some (acc, s, r) := by
  unfold findClose
  split
  case h_1 s' r' heq =>
    rw [heq] at h
    simp only [Option.some.injEq, Prod.mk.injEq] at h
    rw [h.1, h.2]
  case h_2 heq =>
    rw [heq] at h
    exact absurd h (by simp)

theorem findClose_cons_step {c : Char} {rest acc : List Char}
    (h : closeHere (c :: rest) = none) (hc : ¬ c = '\n') :
    findClose acc (c :: rest) = findClose (acc ++ [c]) rest := by
  conv_lhs => unfold findClose
  rw [h]
  show (if c = '\n' then none else findClose (acc ++ [c]) rest) = findClose (acc ++ [c]) rest
  rw [if_neg hc]

theorem findClose_entry : ∀ (n : List Char), (∀ a ∈ n, ¬ a = '*') → (∀ a ∈ n, ¬ a = '\n') →
    ∀ (acc ys s r : List Char), tailPart ys = some (s, r) →
      findClose acc (n ++ '*' :: '*' :: ys) = some (acc ++ n, s, r) := by
  intro n
  induction n with
  | nil =>
    intro _ _ acc ys s r htp
    rw [List.nil_append, List.append_nil]
    exact findClose_cons_close (by rw [closeHere_stars, htp])
  | cons a n ih =>
    intro hstar hnl acc ys s r htp
    have ha : ¬ a = '*' := hstar a (by simp)
    rw [List.cons_append, findClose_cons_step (closeHere_not_star ha) (hnl a (by simp))]
    rw [ih (fun b hb => hstar b (by simp [hb])) (fun b hb => hnl b (by simp [hb])) _ _ _ _ htp]
    simp

theorem tryMatch_stars {body : List Char} : tryMatch ('*' :: '*' :: body) = findClose [] body := by
  simp [tryMatch]

theorem tryMatch_not_star {c : Char} {rest : List Char} (h : ¬ c = '*') :
    tryMatch (c :: rest) = none := by
  unfold tryMatch
  cases rest with
  | nil => rfl
  | cons c2 ys => simp [h]

theorem entryChars_append (n s rest : List Char) :
    entryChars n s ++ rest = '*' :: '*' :: (n ++ '*' :: '*' :: (':' :: ' ' :: (s ++ rest))) := by
  simp [entryChars]

theorem scan_entry {n s rest : List Char}
    (hstar : ∀ a ∈ n, ¬ a = '*') (hnl : ∀ a ∈ n, ¬ a = '\n')
    (hnls : ∀ a ∈ s, ¬ a = '\n')
    (hhd : ∃ c tl, s = c :: tl ∧ isPySpace c = false)
    (hrest : rest = [] ∨ ∃ r2, rest = '\n' :: r2) :
    scanMatches (entryChars n s ++ rest) = (n, s) :: scanMatches rest := by
  have htp := tailPart_shape hnls hhd hrest
  have hfc := findClose_entry n hstar hnl [] _ _ _ htp
  rw [entryChars_append]
  have htm : tryMatch ('*' :: '*' :: (n ++ '*' :: '*' :: (':' :: ' ' :: (s ++ rest)))) =
      some (n, s, rest) := by
    rw [tryMatch_stars, hfc]
    simp
  exact scanMatches_cons_some htm

theorem scanMatches_newline (xs : List Char) : scanMatches ('\n' :: xs) = scanMatches xs :=
  scanMatches_cons_none (tryMatch_not_star (by decide))

theorem scanMatches_no_star : ∀ (xs : List Char), (∀ a ∈ xs, ¬ a = '*') →
    scanMatches xs = [] := by
  intro xs
  induction xs with
  | nil => intro _; rfl
  | cons c rest ih =>
    intro h
    rw [scanMatches_cons_none (tryMatch_not_star (h c (by simp)))]
    exact ih (fun b hb => h b (by simp [hb]))

theorem scan_buildL : ∀ (L : List (List Char × List Char)),
    (∀ p ∈ L, (∀ a ∈ p.1, ¬ a = '*') ∧ (∀ a ∈ p.1, ¬ a = '\n') ∧ (∀ a ∈ p.2, ¬ a = '\n') ∧
      ∃ c tl, p.2 = c :: tl ∧ isPySpace c = false) →
    scanMatches (buildL L) = L := by
  intro L
  induction L with
  | nil => intro _; rfl
  | cons p L ih =>
    obtain ⟨n, s⟩ := p
    intro h
    obtain ⟨h1, h2, h3, h4⟩ := h (n, s) (by simp)
    cases L with
    | nil =>
      have := scan_entry h1 h2 h3 h4 (Or.inl rfl)
      simpa [buildL] using this
    | cons q L' =>
      rw [show buildL ((n, s) :: q :: L') = entryChars n s ++ '\n' :: buildL (q :: L') from rfl]
      rw [scan_entry h1 h2 h3 h4 (Or.inr ⟨_, rfl⟩), scanMatches_newline]
      rw [ih (fun p hp => h p (by simp [hp]))]

/-! ## Toolkit: the dict comprehension and the round trip -/

theorem mk_data (s : String) : String.mk s.data = s := rfl

theorem data_append (s t : String) : (s ++ t).data = s.data ++ t.data := rfl

theorem foldl_dictInsert_of_fresh : ∀ (L acc : List (String × String)),
    L.Pairwise (fun a b => a.1 ≠ b.1) →
    (∀ p ∈ L, (acc.any fun q => q.1 == p.1) = false) →
    L.foldl (fun d p => dictInsert d p.1 p.2) acc = acc ++ L := by
  intro L
  induction L with
  | nil => intro acc _ _; simp
  | cons p L ih =>
    intro acc hpw hfresh
    obtain ⟨k, v⟩ := p
    obtain ⟨hhead, htail⟩ := List.pairwise_cons.mp hpw
    have hknot : (acc.any fun q => q.1 == k) = false := hfresh (k, v) (by simp)
    simp only [List.foldl_cons]
    rw [show dictInsert acc k v = acc ++ [(k, v)] from by simp [dictInsert, hknot]]
    rw [ih (acc ++ [(k, v)]) htail ?fresh]
    · simp
    case fresh =>
      intro q hq
      rw [List.any_append]
      rw [hfresh q (by simp [hq])]
      have : ¬ k = q.1 := hhead q hq
      simp [this]

theorem toDict_of_pairwise (L : List (String × String))
    (h : L.Pairwise (fun a b => a.1 ≠ b.1)) : toDict L = L := by
  unfold toDict
  rw [foldl_dictInsert_of_fresh L [] h (by simp)]
  simp

theorem parse_build (M : List (String × String)) (hM : ∀ p ∈ M, goodPair p) :
    parse_lineage_summaries (buildLineageText M) = toDict M := by
  cases M with
  | nil => rfl
  | cons q M' =>
    set L := ((q :: M').map fun p => (p.1.data, p.2.data)) with hL
    have hnonempty : buildL L ≠ [] := by
      rw [hL]
      obtain ⟨n, s⟩ := q
      cases M' <;> simp [buildL, entryChars]
    have htext : buildLineageText (q :: M') ≠ "" := by
      intro hcontra
      unfold buildLineageText at hcontra
      rw [← hL] at hcontra
      have : buildL L = [] := congrArg String.data hcontra
      exact hnonempty this
    unfold parse_lineage_summaries
    rw [if_neg htext]
    have hdata : (buildLineageText (q :: M')).data = buildL L := by
      unfold buildLineageText
      rw [← hL]
    rw [hdata]
    have hscan : scanMatches (buildL L) = L := by
      apply scan_buildL
      intro p hp
      rw [hL] at hp
      simp only [List.mem_map] at hp
      obtain ⟨q', hq', hpq⟩ := hp
      obtain ⟨g1, g2, g3, g4, g5⟩ := hM q' hq'
      subst hpq
      refine ⟨g1, g2, g3, ?_⟩
      cases hq2 : q'.2.data with
      | nil => exact absurd hq2 g4
      | cons c tl =>
        refine ⟨c, tl, rfl, ?_⟩
        rw [hq2] at g5
        simpa using g5
    rw [hscan, hL, List.map_map]
    have hmapid : ((q :: M').map
        ((fun p : List Char × List Char => (String.mk p.1, String.mk p.2)) ∘
          fun p : String × String => (p.1.data, p.2.data))) = q :: M' := by
      rw [List.map_congr_left (fun p _ => ?_), List.map_id]
      show (String.mk p.1.data, String.mk p.2.data) = p
      rw [mk_data, mk_data]
    rw [hmapid]

/-! ## Toolkit: `parse_discover_more` on structured text -/

theorem dropWhile_head_false {p : Char → Bool} {l : List Char} {c : Char} {tl : List Char}
    (h : l.dropWhile p = c :: tl) : p c = false := by
  induction l with
  | nil => simp at h
  | cons a l ih =>
    by_cases hpa : p a = true
    · rw [List.dropWhile_cons_of_pos hpa] at h
      exact ih h
    · rw [List.dropWhile_cons_of_neg (by simpa using hpa)] at h
      injection h with h1 _
      rw [← h1]
      simpa using hpa

theorem mem_of_mem_dropWhile {p : Char → Bool} {l : List Char} {a : Char}
    (h : a ∈ l.dropWhile p) : a ∈ l :=
  (List.dropWhile_sublist p).subset h

theorem dropWhile_idem {p : Char → Bool} (l : List Char) :
    (l.dropWhile p).dropWhile p = l.dropWhile p := by
  cases h : l.dropWhile p with
  | nil => rfl
  | cons c tl => exact List.dropWhile_cons_of_neg (by simp [dropWhile_head_false h])

theorem firstOccur_hashfree_append {needle : List Char} {n0 : Char} {ntl : List Char}
    (hne : needle = n0 :: ntl) (xs ys : List Char) (hxs : ∀ a ∈ xs, ¬ a = n0) :
    firstOccur needle (xs ++ ys) = (firstOccur needle ys).map (· + xs.length) :=
  firstOccur_append_of_no_occur needle xs ys (no_occur_of_all_ne hne xs ys hxs)

theorem firstOccur_window_append {needle fixed : List Char}
    (hw : noOccWindow needle fixed = true) (ys : List Char) :
    firstOccur needle (fixed ++ ys) = (firstOccur needle ys).map (· + fixed.length) :=
  firstOccur_append_of_no_occur needle fixed ys (no_occur_of_window hw ys)

theorem firstOccur_none_dropWhile {needle : List Char} {p : Char → Bool} {xs : List Char}
    (h : firstOccur needle xs = none) : firstOccur needle (xs.dropWhile p) = none := by
  induction xs with
  | nil => simpa using h
  | cons c rest ih =>
    by_cases hpre : needle.isPrefixOf (c :: rest) = true
    · rw [firstOccur_cons_pos hpre] at h
      exact absurd h (by simp)
    · simp only [Bool.not_eq_true] at hpre
      rw [firstOccur_cons_neg hpre] at h
      rw [Option.map_eq_none'] at h
      by_cases hp : p c = true
      · rw [List.dropWhile_cons_of_pos hp]
        exact ih h
      · rw [List.dropWhile_cons_of_neg (by simpa using hp), firstOccur_cons_neg hpre, h]
        rfl

/-- Capturing a section body: after skipping the whitespace that follows a
heading, the lazy group runs up to the next heading; stripped, it equals
the stripped section text. -/
theorem body_capture (sec next after : List Char)
    (hsec : ∀ a ∈ sec, ¬ a = '#') (hnext : ∃ t2, next = '#' :: t2) :
    ∃ g,
      (firstOccur next (('\n' :: (sec ++ '\n' :: (next ++ after))).dropWhile isPySpace)).map
          (('\n' :: (sec ++ '\n' :: (next ++ after))).dropWhile isPySpace).take = some g ∧
        pyStrip g = pyStrip sec := by
  obtain ⟨t2, hn⟩ := hnext
  have hstep : ('\n' :: (sec ++ '\n' :: (next ++ after))).dropWhile isPySpace =
      (sec ++ '\n' :: (next ++ after)).dropWhile isPySpace :=
    List.dropWhile_cons_of_pos (by simp [isPySpace])
  rw [hstep, List.dropWhile_append]
  by_cases hemp : (sec.dropWhile isPySpace).isEmpty = true
  · rw [if_pos hemp]
    have h2 : ('\n' :: (next ++ after)).dropWhile isPySpace = next ++ after := by
      rw [List.dropWhile_cons_of_pos (by simp [isPySpace]), hn, List.cons_append]
      exact List.dropWhile_cons_of_neg (by simp [isPySpace])
    rw [h2, firstOccur_self]
    refine ⟨[], by simp, ?_⟩
    have hsec_empty : sec.dropWhile isPySpace = [] := by
      simpa [List.isEmpty_iff] using hemp
    simp [pyStrip, hsec_empty]
  · rw [if_neg hemp]
    set s1 := sec.dropWhile isPySpace with hs1
    obtain ⟨c, tl, hcons⟩ : ∃ c tl, s1 = c :: tl := by
      cases h : s1 with
      | nil => rw [h] at hemp; simp at hemp
      | cons c tl => exact ⟨c, tl, rfl⟩
    have hc : isPySpace c = false := dropWhile_head_false (hs1.symm.trans hcons)
    have hassoc : s1 ++ '\n' :: (next ++ after) = (s1 ++ ['\n']) ++ (next ++ after) := by
      simp
    rw [hassoc]
    have hno : ∀ a ∈ s1 ++ ['\n'], ¬ a = '#' := by
      intro a ha
      rcases List.mem_append.mp ha with hmem | hmem
      · exact hsec a (mem_of_mem_dropWhile (hs1 ▸ hmem))
      · simp only [List.mem_singleton] at hmem
        subst hmem
        decide
    rw [firstOccur_hashfree_append hn (s1 ++ ['\n']) (next ++ after) hno, firstOccur_self]
    refine ⟨s1 ++ ['\n'], ?_, ?_⟩
    · show some (((s1 ++ ['\n']) ++ (next ++ after)).take (0 + (s1 ++ ['\n']).length)) =
        some (s1 ++ ['\n'])
      congr 1
      rw [Nat.zero_add]
      have htake : ((s1 ++ ['\n']) ++ (next ++ after)).take ((s1 ++ ['\n']).length + 0) =
          (s1 ++ ['\n']) ++ (next ++ after).take 0 := List.take_append 0
      simpa using htake
    · have h5 : (s1 ++ ['\n']).dropWhile isPySpace = s1 ++ ['\n'] := by
        rw [hcons, List.cons_append]
        exact List.dropWhile_cons_of_neg (by simp [hc])
      unfold pyStrip
      rw [h5, ← hs1, List.reverse_append]
      simp only [List.reverse_cons, List.reverse_nil, List.nil_append, List.singleton_append]
      rw [List.dropWhile_cons_of_pos (by simp [isPySpace])]

/-- The music pattern's greedy group: everything after the heading's
whitespace run; stripped, it equals the stripped section text. -/
theorem body_after_newline (sec : List Char) :
    pyStrip (('\n' :: sec).dropWhile isPySpace) = pyStrip sec := by
  rw [List.dropWhile_cons_of_pos (by simp [isPySpace])]
  unfold pyStrip
  rw [dropWhile_idem]

theorem searchBetween_eq {head la hay : List Char} {i : Nat}
    (h1 : firstOccur head hay = some i) :
    searchBetween head la hay =
      (firstOccur la ((hay.drop (i + head.length)).dropWhile isPySpace)).map
        ((hay.drop (i + head.length)).dropWhile isPySpace).take := by
  unfold searchBetween
  rw [h1]
  show (match firstOccur la ((hay.drop (i + head.length)).dropWhile isPySpace) with
        | none => none
        | some j => some (((hay.drop (i + head.length)).dropWhile isPySpace).take j)) = _
  cases firstOccur la ((hay.drop (i + head.length)).dropWhile isPySpace) <;> rfl

theorem searchBetween_none {head la hay : List Char}
    (h1 : firstOccur head hay = none) : searchBetween head la hay = none := by
  unfold searchBetween
  rw [h1]

theorem searchAfter_eq {head hay : List Char} {i : Nat} (h1 : firstOccur head hay = some i) :
    searchAfter head hay = some ((hay.drop (i + head.length)).dropWhile isPySpace) := by
  unfold searchAfter
  rw [h1]

theorem searchAfter_none {head hay : List Char} (h1 : firstOccur head hay = none) :
    searchAfter head hay = none := by
  unfold searchAfter
  rw [h1]

theorem parse_discover_more_elim (text : String) (h : ¬ text = "") :
    parse_discover_more text =
      [("books", (searchBetween hBooks hPlaces text.data).elim "No recommendations found."
          fun g => String.mk (pyStrip g)),
       ("places", (searchBetween hPlaces hMusic text.data).elim "No recommendations found."
          fun g => String.mk (pyStrip g)),
       ("music", (searchAfter hMusic text.data).elim "No recommendations found."
          fun g => String.mk (pyStrip g))] := by
  unfold parse_discover_more
  rw [if_neg h]
  dsimp only
  cases searchBetween hBooks hPlaces text.data <;>
    cases searchBetween hPlaces hMusic text.data <;>
      cases searchAfter hMusic text.data <;> rfl

theorem hBooks_cons : hBooks = '#' :: "## 📚 Books to Read".data := by decide

theorem hPlaces_cons : hPlaces = '#' :: "## 📍 Places to Visit".data := by decide

theorem hMusic_cons : hMusic = '#' :: "## 🎧 Music to Listen To".data := by decide

theorem wfDiscover_data (b p m : String) :
    (wfDiscover b p m).data =
      hBooks ++ '\n' :: (b.data ++ '\n' ::
        (hPlaces ++ '\n' :: (p.data ++ '\n' :: (hMusic ++ '\n' :: m.data)))) := by
  unfold wfDiscover
  simp only [data_append]
  simp [hBooks, hPlaces, hMusic, List.append_assoc]

/-- `parse_discover_more` on a well-formed three-section text recovers the
three sections stripped.  The `#`-freeness hypotheses say the sections do
not themselves contain heading-like text. -/
theorem discover_wf_parse (b p m : String)
    (hb : ∀ a ∈ b.data, ¬ a = '#') (hpd : ∀ a ∈ p.data, ¬ a = '#')
    (hm : ∀ a ∈ m.data, ¬ a = '#') :
    parse_discover_more (wfDiscover b p m) =
      [("books", String.mk (pyStrip b.data)), ("places", String.mk (pyStrip p.data)),
        ("music", String.mk (pyStrip m.data))] := by
  have htext : ¬ wfDiscover b p m = "" := by
    intro hcontra
    have hdata := congrArg String.data hcontra
    have hnil : ("" : String).data = [] := rfl
    rw [wfDiscover_data, hnil] at hdata
    exact absurd (List.append_eq_nil.mp hdata).1 (by decide)
  rw [parse_discover_more_elim _ htext, wfDiscover_data]
  have hw1 : ∀ a ∈ ('\n' :: (b.data ++ ['\n'])), ¬ a = '#' := by
    intro a ha
    simp only [List.mem_cons, List.mem_append, List.mem_singleton, List.not_mem_nil,
      or_false] at ha
    rcases ha with h | h | h
    · subst h; decide
    · exact hb a h
    · subst h; decide
  have hw2 : ∀ a ∈ ('\n' :: (p.data ++ ['\n'])), ¬ a = '#' := by
    intro a ha
    simp only [List.mem_cons, List.mem_append, List.mem_singleton, List.not_mem_nil,
      or_false] at ha
    rcases ha with h | h | h
    · subst h; decide
    · exact hpd a h
    · subst h; decide
  -- books
  have hfb : firstOccur hBooks (hBooks ++ '\n' :: (b.data ++ '\n' ::
      (hPlaces ++ '\n' :: (p.data ++ '\n' :: (hMusic ++ '\n' :: m.data))))) = some 0 :=
    firstOccur_self hBooks _
  obtain ⟨gb, hgb, hgbs⟩ := body_capture b.data hPlaces
    ('\n' :: (p.data ++ '\n' :: (hMusic ++ '\n' :: m.data))) hb ⟨_, hPlaces_cons⟩
  have hsb : searchBetween hBooks hPlaces (hBooks ++ '\n' :: (b.data ++ '\n' ::
      (hPlaces ++ '\n' :: (p.data ++ '\n' :: (hMusic ++ '\n' :: m.data))))) = some gb := by
    rw [searchBetween_eq hfb, Nat.zero_add, List.drop_left]
    exact hgb
  -- places
  have hT2 : hBooks ++ '\n' :: (b.data ++ '\n' ::
      (hPlaces ++ '\n' :: (p.data ++ '\n' :: (hMusic ++ '\n' :: m.data)))) =
      hBooks ++ (('\n' :: (b.data ++ ['\n'])) ++ (hPlaces ++
        ('\n' :: (p.data ++ '\n' :: (hMusic ++ '\n' :: m.data))))) := by
    simp
  have hfp : firstOccur hPlaces (hBooks ++ '\n' :: (b.data ++ '\n' ::
      (hPlaces ++ '\n' :: (p.data ++ '\n' :: (hMusic ++ '\n' :: m.data))))) =
      some ((0 + ('\n' :: (b.data ++ ['\n'])).length) + hBooks.length) := by
    rw [hT2, firstOccur_window_append window_places_books,
      firstOccur_hashfree_append hPlaces_cons _ _ hw1, firstOccur_self]
    rfl
  have hQp : hBooks ++ '\n' :: (b.data ++ '\n' ::
      (hPlaces ++ '\n' :: (p.data ++ '\n' :: (hMusic ++ '\n' :: m.data)))) =
      (hBooks ++ '\n' :: (b.data ++ '\n' :: hPlaces)) ++
        ('\n' :: (p.data ++ '\n' :: (hMusic ++ '\n' :: m.data))) := by
    simp
  have hlenp : (hBooks ++ '\n' :: (b.data ++ '\n' :: hPlaces)).length =
      ((0 + ('\n' :: (b.data ++ ['\n'])).length) + hBooks.length) + hPlaces.length := by
    simp
    omega
  have hdropp : (hBooks ++ '\n' :: (b.data ++ '\n' ::
      (hPlaces ++ '\n' :: (p.data ++ '\n' :: (hMusic ++ '\n' :: m.data))))).drop
        (((0 + ('\n' :: (b.data ++ ['\n'])).length) + hBooks.length) + hPlaces.length) =
      '\n' :: (p.data ++ '\n' :: (hMusic ++ '\n' :: m.data)) := by
    rw [hQp]
    exact List.drop_left' hlenp
  obtain ⟨gp, hgp, hgps⟩ := body_capture p.data hMusic ('\n' :: m.data) hpd ⟨_, hMusic_cons⟩
  have hsp : searchBetween hPlaces hMusic (hBooks ++ '\n' :: (b.data ++ '\n' ::
      (hPlaces ++ '\n' :: (p.data ++ '\n' :: (hMusic ++ '\n' :: m.data))))) = some gp := by
    rw [searchBetween_eq hfp, hdropp]
    exact hgp
  -- music
  have hT3 : hBooks ++ '\n' :: (b.data ++ '\n' ::
      (hPlaces ++ '\n' :: (p.data ++ '\n' :: (hMusic ++ '\n' :: m.data)))) =
      hBooks ++ (('\n' :: (b.data ++ ['\n'])) ++ (hPlaces ++ (('\n' :: (p.data ++ ['\n'])) ++
        (hMusic ++ '\n' :: m.data)))) := by
    simp
  have hfm : firstOccur hMusic (hBooks ++ '\n' :: (b.data ++ '\n' ::
      (hPlaces ++ '\n' :: (p.data ++ '\n' :: (hMusic ++ '\n' :: m.data))))) =
      some ((((0 + ('\n' :: (p.data ++ ['\n'])).length) + hPlaces.length) +
        ('\n' :: (b.data ++ ['\n'])).length) + hBooks.length) := by
    rw [hT3, firstOccur_window_append window_music_books,
      firstOccur_hashfree_append hMusic_cons _ _ hw1,
      firstOccur_window_append window_music_places,
      firstOccur_hashfree_append hMusic_cons _ _ hw2, firstOccur_self]
    rfl
  have hQm : hBooks ++ '\n' :: (b.data ++ '\n' ::
      (hPlaces ++ '\n' :: (p.data ++ '\n' :: (hMusic ++ '\n' :: m.data)))) =
      (hBooks ++ '\n' :: (b.data ++ '\n' :: (hPlaces ++ '\n' :: (p.data ++ '\n' :: hMusic)))) ++
        ('\n' :: m.data) := by
    simp
  have hlenm : (hBooks ++ '\n' :: (b.data ++ '\n' ::
      (hPlaces ++ '\n' :: (p.data ++ '\n' :: hMusic)))).length =
      ((((0 + ('\n' :: (p.data ++ ['\n'])).length) + hPlaces.length) +
        ('\n' :: (b.data ++ ['\n'])).length) + hBooks.length) + hMusic.length := by
    simp
    omega
  have hdropm : (hBooks ++ '\n' :: (b.data ++ '\n' ::
      (hPlaces ++ '\n' :: (p.data ++ '\n' :: (hMusic ++ '\n' :: m.data))))).drop
        (((((0 + ('\n' :: (p.data ++ ['\n'])).length) + hPlaces.length) +
          ('\n' :: (b.data ++ ['\n'])).length) + hBooks.length) + hMusic.length) =
      '\n' :: m.data := by
    rw [hQm]
    exact List.drop_left' hlenm
  have hsm : searchAfter hMusic (hBooks ++ '\n' :: (b.data ++ '\n' ::
      (hPlaces ++ '\n' :: (p.data ++ '\n' :: (hMusic ++ '\n' :: m.data))))) =
      some (('\n' :: m.data).dropWhile isPySpace) := by
    rw [searchAfter_eq hfm, hdropm]
  rw [hsb, hsp, hsm]
  simp only [Option.elim_some]
  rw [hgbs, hgps, body_after_newline]

theorem wfDiscoverNoPlaces_data (b m : String) :
    (wfDiscoverNoPlaces b m).data =
      hBooks ++ '\n' :: (b.data ++ '\n' :: (hMusic ++ '\n' :: m.data)) := by
  unfold wfDiscoverNoPlaces
  simp only [data_append]
  simp [hBooks, hMusic, List.append_assoc]

/-- `parse_discover_more` on a text whose places heading is missing: the
places section falls back to the placeholder, and so does the books
section — its pattern requires the places heading as its right delimiter —
while the music section is still recovered. -/
theorem discover_no_places_parse (b m : String)
    (hb : ∀ a ∈ b.data, ¬ a = '#') (hm : ∀ a ∈ m.data, ¬ a = '#') :
    parse_discover_more (wfDiscoverNoPlaces b m) =
      [("books", "No recommendations found."), ("places", "No recommendations found."),
        ("music", String.mk (pyStrip m.data))] := by
  have htext : ¬ wfDiscoverNoPlaces b m = "" := by
    intro hcontra
    have hdata := congrArg String.data hcontra
    have hnil : ("" : String).data = [] := rfl
    rw [wfDiscoverNoPlaces_data, hnil] at hdata
    exact absurd (List.append_eq_nil.mp hdata).1 (by decide)
  rw [parse_discover_more_elim _ htext, wfDiscoverNoPlaces_data]
  have hw1 : ∀ a ∈ ('\n' :: (b.data ++ ['\n'])), ¬ a = '#' := by
    intro a ha
    simp only [List.mem_cons, List.mem_append, List.mem_singleton, List.not_mem_nil,
      or_false] at ha
    rcases ha with h | h | h
    · subst h; decide
    · exact hb a h
    · subst h; decide
  have hnm : ∀ a ∈ ('\n' :: m.data), ¬ a = '#' := by
    intro a ha
    simp only [List.mem_cons] at ha
    rcases ha with h | h
    · subst h; decide
    · exact hm a h
  -- no occurrence of the places heading anywhere
  have hrest_none : firstOccur hPlaces (('\n' :: (b.data ++ ['\n'])) ++
      (hMusic ++ '\n' :: m.data)) = none := by
    rw [firstOccur_hashfree_append hPlaces_cons _ _ hw1,
      firstOccur_window_append window_places_music,
      firstOccur_none_of_all_ne hPlaces_cons ('\n' :: m.data) hnm]
    rfl
  have hT2 : hBooks ++ '\n' :: (b.data ++ '\n' :: (hMusic ++ '\n' :: m.data)) =
      hBooks ++ (('\n' :: (b.data ++ ['\n'])) ++ (hMusic ++ '\n' :: m.data)) := by
    simp
  have hfp_none : firstOccur hPlaces
      (hBooks ++ '\n' :: (b.data ++ '\n' :: (hMusic ++ '\n' :: m.data))) = none := by
    rw [hT2, firstOccur_window_append window_places_books, hrest_none]
    rfl
  -- books: the heading is found but the lookahead is not
  have hfb : firstOccur hBooks
      (hBooks ++ '\n' :: (b.data ++ '\n' :: (hMusic ++ '\n' :: m.data))) = some 0 :=
    firstOccur_self hBooks _
  have hsb : searchBetween hBooks hPlaces
      (hBooks ++ '\n' :: (b.data ++ '\n' :: (hMusic ++ '\n' :: m.data))) = none := by
    rw [searchBetween_eq hfb, Nat.zero_add, List.drop_left]
    have hbody : firstOccur hPlaces
        (('\n' :: (b.data ++ '\n' :: (hMusic ++ '\n' :: m.data))).dropWhile isPySpace) =
        none := by
      apply firstOccur_none_dropWhile
      have hshape : '\n' :: (b.data ++ '\n' :: (hMusic ++ '\n' :: m.data)) =
          ('\n' :: (b.data ++ ['\n'])) ++ (hMusic ++ '\n' :: m.data) := by
        simp
      rw [hshape]
      exact hrest_none
    rw [hbody]
    rfl
  -- places
  have hsp : searchBetween hPlaces hMusic
      (hBooks ++ '\n' :: (b.data ++ '\n' :: (hMusic ++ '\n' :: m.data))) = none :=
    searchBetween_none hfp_none
  -- music
  have hfm : firstOccur hMusic
      (hBooks ++ '\n' :: (b.data ++ '\n' :: (hMusic ++ '\n' :: m.data))) =
      some ((0 + ('\n' :: (b.data ++ ['\n'])).length) + hBooks.length) := by
    rw [hT2, firstOccur_window_append window_music_books,
      firstOccur_hashfree_append hMusic_cons _ _ hw1, firstOccur_self]
    rfl
  have hQm : hBooks ++ '\n' :: (b.data ++ '\n' :: (hMusic ++ '\n' :: m.data)) =
      (hBooks ++ '\n' :: (b.data ++ '\n' :: hMusic)) ++ ('\n' :: m.data) := by
    simp
  have hlenm : (hBooks ++ '\n' :: (b.data ++ '\n' :: hMusic)).length =
      ((0 + ('\n' :: (b.data ++ ['\n'])).length) + hBooks.length) + hMusic.length := by
    simp
    omega
  have hdropm : (hBooks ++ '\n' :: (b.data ++ '\n' :: (hMusic ++ '\n' :: m.data))).drop
      (((0 + ('\n' :: (b.data ++ ['\n'])).length) + hBooks.length) + hMusic.length) =
      '\n' :: m.data := by
    rw [hQm]
    exact List.drop_left' hlenm
  have hsm : searchAfter hMusic
      (hBooks ++ '\n' :: (b.data ++ '\n' :: (hMusic ++ '\n' :: m.data))) =
      some (('\n' :: m.data).dropWhile isPySpace) := by
    rw [searchAfter_eq hfm, hdropm]
  rw [hsb, hsp, hsm]
  simp only [Option.elim_some, Option.elim_none]
  rw [body_after_newline]

/-! ## Toolkit: remaining parser facts -/

theorem parse_lineage_no_star (s : String) (h : ∀ a ∈ s.data, ¬ a = '*') :
    parse_lineage_summaries s = [] := by
  unfold parse_lineage_summaries
  by_cases h0 : s = ""
  · rw [if_pos h0]
  · rw [if_neg h0, scanMatches_no_star s.data h]
    rfl

theorem discover_hashfree_parse (s : String) (h0 : ¬ s = "") (h : ∀ a ∈ s.data, ¬ a = '#') :
    parse_discover_more s =
      [("books", "No recommendations found."), ("places", "No recommendations found."),
        ("music", "No recommendations found.")] := by
  rw [parse_discover_more_elim _ h0]
  rw [searchBetween_none (firstOccur_none_of_all_ne hBooks_cons s.data h),
    searchBetween_none (firstOccur_none_of_all_ne hPlaces_cons s.data h),
    searchAfter_none (firstOccur_none_of_all_ne hMusic_cons s.data h)]
  rfl

/-! ## Toolkit: the conclusion marker on decomposed responses -/

theorem pyStrip_space_append (w1 xs : List Char) (hw : ∀ a ∈ w1, isPySpace a = true) :
    pyStrip (w1 ++ xs) = pyStrip xs := by
  unfold pyStrip
  rw [List.dropWhile_append_of_pos hw]

theorem pyStrip_marker_head (w1 rest : List Char) (hw : ∀ a ∈ w1, isPySpace a = true) :
    markerChars.isPrefixOf (pyStrip (w1 ++ (markerChars ++ rest))) = true := by
  unfold pyStrip
  rw [List.dropWhile_append_of_pos hw]
  have hdrop : (markerChars ++ rest).dropWhile isPySpace = markerChars ++ rest := by
    have hcons : markerChars ++ rest = 'C' :: ("ONCLUSION:".data ++ rest) := by
      rw [show markerChars = 'C' :: "ONCLUSION:".data from by decide]
      rfl
    rw [hcons]
    exact List.dropWhile_cons_of_neg (by simp [isPySpace])
  rw [hdrop, List.reverse_append, List.dropWhile_append]
  by_cases hre : (rest.reverse.dropWhile isPySpace).isEmpty = true
  · rw [if_pos hre]
    rw [show markerChars.reverse.dropWhile isPySpace = markerChars.reverse from by decide]
    rw [List.reverse_reverse]
    have := isPrefixOf_append_self markerChars []
    simpa using this
  · rw [if_neg hre, List.reverse_append, List.reverse_reverse]
    exact isPrefixOf_append_self _ _

theorem removeMarker_decomp (w1 rest : List Char) (hw : ∀ a ∈ w1, isPySpace a = true)
    (hno : firstOccur markerChars rest = none) :
    removeMarker (w1 ++ (markerChars ++ rest)) = w1 ++ rest := by
  rw [removeMarker_space_append hw, removeMarker_marker_append,
    removeMarker_of_no_occur hno]

/-! ## Toolkit: state-machine operation unfoldings -/

theorem chooseLineageEntry_fresh (s : Session) (r : String) (h1 : s.lineages = none)
    (h2 : ¬ r = "") :
    chooseLineageEntry s (some r) = ({ s with lineages := some (parse_lineage_summaries r) }, 1) := by
  unfold chooseLineageEntry
  rw [h1]
  simp [h2]

theorem chooseLineageEntry_present (s : Session) (resp : Option String)
    (h : s.lineages.isSome = true) : chooseLineageEntry s resp = (s, 0) := by
  unfold chooseLineageEntry
  rw [if_pos h]

theorem chooseLineageEntry_fields (s : Session) (resp : Option String) :
    (chooseLineageEntry s resp).1.stage = s.stage ∧
    (chooseLineageEntry s resp).1.chosen_lineage = s.chosen_lineage := by
  by_cases h1 : s.lineages.isSome = true
  · rw [chooseLineageEntry_present s resp h1]
    exact ⟨rfl, rfl⟩
  · cases resp with
    | none => constructor <;> simp [chooseLineageEntry, h1]
    | some r =>
      by_cases hr : r = "" <;> constructor <;> simp [chooseLineageEntry, h1, hr]

theorem finalSummaryEntry_fields (s : Session) (resp : Option String) :
    (finalSummaryEntry s resp).1.stage = s.stage ∧
    (finalSummaryEntry s resp).1.chosen_lineage = s.chosen_lineage := by
  by_cases h1 : s.discover_more_content.isSome = true
  · rw [show finalSummaryEntry s resp = (s, 0) from by
      unfold finalSummaryEntry
      rw [if_pos h1]]
    exact ⟨rfl, rfl⟩
  · cases resp with
    | none => constructor <;> simp [finalSummaryEntry, h1]
    | some r =>
      by_cases hr : r = "" <;> constructor <;> simp [finalSummaryEntry, h1, hr]

theorem dialogueEntry_stage (s : Session) (mr fq : Option String)
    (hds : s.dialogue_started = false) :
    (dialogueEntry s mr fq).stage = s.stage ∨
      (dialogueEntry s mr fq).stage = Stage.choose_lineage := by
  cases mr with
  | none => right; simp [dialogueEntry, hds]
  | some m =>
    by_cases hm : m = ""
    · right
      simp [dialogueEntry, hds, hm]
    · cases fq with
      | none =>
        left
        simp [dialogueEntry, hds, hm]
      | some q =>
        by_cases hq : q = "" <;> left <;> simp [dialogueEntry, hds, hm, hq]

theorem submitReflection_stage_cases (s : Session) (u : String) (resp : Option String) :
    (submitReflection s u resp).stage = s.stage ∨
      (submitReflection s u resp).stage = Stage.final_summary := by
  cases resp with
  | none => left; rfl
  | some t =>
    by_cases ht : t = ""
    · left
      simp [submitReflection, ht]
    · by_cases hmk : markerChars.isPrefixOf (pyStrip t.data) = true
      · right
        simp [submitReflection, ht, hmk]
      · left
        simp [submitReflection, ht, hmk]

theorem submitReflection_marker (s : Session) (u t : String)
    (ht : ¬ t = "") (hmk : markerChars.isPrefixOf (pyStrip t.data) = true) :
    (submitReflection s u (some t)).stage = Stage.final_summary ∧
    (submitReflection s u (some t)).final_summary =
      some (String.mk (pyStrip (removeMarker t.data))) ∧
    (submitReflection s u (some t)).messages =
      some (s.messages.getD [] ++ [{ role := Role.user, text := u }]) := by
  refine ⟨?_, ?_, ?_⟩ <;> simp [submitReflection, ht, hmk]

theorem submitReflection_plain (s : Session) (u t : String)
    (ht : ¬ t = "") (hmk : markerChars.isPrefixOf (pyStrip t.data) = false) :
    (submitReflection s u (some t)).stage = s.stage ∧
    (submitReflection s u (some t)).messages =
      some (s.messages.getD [] ++
        [{ role := Role.user, text := u }, { role := Role.model, text := t }]) ∧
    (submitReflection s u (some t)).final_summary = s.final_summary := by
  refine ⟨?_, ?_, ?_⟩ <;> simp [submitReflection, ht, hmk]

/-! # Claims -/

/-- Claim C1, counterexample: starting a fresh session and entering the
choose-lineage stage with a primary response that parses to the empty
mapping, the state machine makes its single call, stores the empty
mapping, and a further render makes zero calls and changes nothing — it
never issues the claimed second (fallback) call and never adopts the
second response's parse result. -/
theorem C1_fallback_cex :
    parse_lineage_summaries "no bold headings here" = [] ∧
    (chooseLineageEntry (submitTopic initSession "grief").1
      (some "no bold headings here")).2 = 1 ∧
    (chooseLineageEntry (chooseLineageEntry (submitTopic initSession "grief").1
      (some "no bold headings here")).1 (some "**Stoicism**: Focus.")).2 = 0 ∧
    (chooseLineageEntry (chooseLineageEntry (submitTopic initSession "grief").1
      (some "no bold headings here")).1 (some "**Stoicism**: Focus.")).1.lineages =
      some [] ∧
    some ([] : List (String × String)) ≠
      some (parse_lineage_summaries "**Stoicism**: Focus.") := by
  decide

/-- Claim C1 (amended): if the primary lineage-discovery response parses to
the empty mapping, the stage stores the empty mapping and shows the
"no paths found" condition, and no additional service call is ever issued —
the source has no fallback prompt; an empty parse is final for the stage. -/
theorem C1_no_second_call (s : Session) (r : String) (resp2 : Option String)
    (h1 : s.lineages = none) (h2 : ¬ r = "") (h3 : parse_lineage_summaries r = []) :
    (chooseLineageEntry s (some r)).2 = 1 ∧
    (chooseLineageEntry s (some r)).1.lineages = some [] ∧
    noPathsShown (chooseLineageEntry s (some r)).1 = true ∧
    (chooseLineageEntry (chooseLineageEntry s (some r)).1 resp2).2 = 0 ∧
    (chooseLineageEntry (chooseLineageEntry s (some r)).1 resp2).1 =
      (chooseLineageEntry s (some r)).1 := by
  rw [chooseLineageEntry_fresh s r h1 h2, h3]
  dsimp only
  rw [chooseLineageEntry_present { s with lineages := some [] } resp2 rfl]
  exact ⟨rfl, rfl, rfl, rfl, rfl⟩

/-- Claim C1, witness for the amended theorem at a concrete input. -/
theorem C1_no_second_call_witness :
    (chooseLineageEntry initSession (some "garbage")).2 = 1 ∧
    (chooseLineageEntry initSession (some "garbage")).1.lineages = some [] ∧
    noPathsShown (chooseLineageEntry initSession (some "garbage")).1 = true ∧
    (chooseLineageEntry (chooseLineageEntry initSession (some "garbage")).1 none).2 = 0 ∧
    (chooseLineageEntry (chooseLineageEntry initSession (some "garbage")).1 none).1 =
      (chooseLineageEntry initSession (some "garbage")).1 :=
  C1_no_second_call initSession "garbage" none rfl (by decide) (by decide)

/-- Claim C2, counterexample: in a reachable dialogue, a continuation
response that repeats the marker later in its text gets EVERY occurrence
removed (the source uses `str.replace`), not just the leading one, so
`finalReflection` differs from the claim's "only that leading marker
stripped". -/
theorem C2_conclusion_cex :
    Reachable (dialogueEntry (selectLineage (chooseLineageEntry (submitTopic initSession
      "grief").1 (some "**Stoicism**: Focus.")).1 "Stoicism") (some "Seneca")
      (some "What do you feel?")) ∧
    (dialogueEntry (selectLineage (chooseLineageEntry (submitTopic initSession
      "grief").1 (some "**Stoicism**: Focus.")).1 "Stoicism") (some "Seneca")
      (some "What do you feel?")).dialogue_started = true ∧
    (submitReflection (dialogueEntry (selectLineage (chooseLineageEntry (submitTopic
      initSession "grief").1 (some "**Stoicism**: Focus.")).1 "Stoicism") (some "Seneca")
      (some "What do you feel?")) "I sit with it"
      (some "CONCLUSION: say CONCLUSION: again")).final_summary = some "say  again" ∧
    some "say  again" ≠ some "say CONCLUSION: again" := by
  refine ⟨?_, by decide, by decide, by decide⟩
  exact Reachable.dlg_entry _ _ _
    (Reachable.select _ "Stoicism" "Focus."
      (Reachable.lineage_entry _ _
        (Reachable.submit _ "grief" Reachable.init rfl) (by decide))
      (by decide) (by decide))
    (by decide) (by decide)

/-- Claim C2 (amended): a truthy continuation response that, after
stripping, begins with `"CONCLUSION:"` moves the session to the
final-summary stage and stores the response with EVERY occurrence of the
marker removed and surrounding whitespace stripped; in particular, when
the marker occurs only as the leading prefix the result is exactly the
remainder trimmed.  A response not beginning with the marker appends a
model message with the full text and leaves the stage unchanged. -/
theorem C2_conclusion_behavior (s : Session) (u t : String) (ht : ¬ t = "") :
    (markerChars.isPrefixOf (pyStrip t.data) = true →
      (submitReflection s u (some t)).stage = Stage.final_summary ∧
      (submitReflection s u (some t)).final_summary =
        some (String.mk (pyStrip (removeMarker t.data)))) ∧
    (∀ w1 rest : List Char, t.data = w1 ++ (markerChars ++ rest) →
      (∀ a ∈ w1, isPySpace a = true) → firstOccur markerChars rest = none →
      (submitReflection s u (some t)).stage = Stage.final_summary ∧
      (submitReflection s u (some t)).final_summary = some (String.mk (pyStrip rest))) ∧
    (markerChars.isPrefixOf (pyStrip t.data) = false →
      (submitReflection s u (some t)).stage = s.stage ∧
      (submitReflection s u (some t)).messages =
        some (s.messages.getD [] ++
          [{ role := Role.user, text := u }, { role := Role.model, text := t }])) := by
  refine ⟨?_, ?_, ?_⟩
  · intro hmk
    exact ⟨(submitReflection_marker s u t ht hmk).1, (submitReflection_marker s u t ht hmk).2.1⟩
  · intro w1 rest hdecomp hw hno
    have hmk : markerChars.isPrefixOf (pyStrip t.data) = true := by
      rw [hdecomp]
      exact pyStrip_marker_head w1 rest hw
    refine ⟨(submitReflection_marker s u t ht hmk).1, ?_⟩
    rw [(submitReflection_marker s u t ht hmk).2.1, hdecomp,
      removeMarker_decomp w1 rest hw hno, pyStrip_space_append w1 rest hw]
  · intro hmk
    exact ⟨(submitReflection_plain s u t ht hmk).1, (submitReflection_plain s u t ht hmk).2.1⟩

/-- Claim C2, witness for the amended theorem: the spec's own example
response, with leading and trailing whitespace. -/
theorem C2_conclusion_behavior_witness :
    (submitReflection initSession "u" (some " CONCLUSION: Go in peace. ")).stage =
      Stage.final_summary ∧
    (submitReflection initSession "u" (some " CONCLUSION: Go in peace. ")).final_summary =
      some "Go in peace." := by
  have h := (C2_conclusion_behavior initSession "u" " CONCLUSION: Go in peace. "
    (by decide)).2.1 [' '] " Go in peace. ".data (by decide) (by decide) (by decide)
  refine ⟨h.1, ?_⟩
  rw [h.2]
  decide

/-- Claim C3, counterexample: from a fresh session, choose a topic and a
lineage, then let the guide-selection call fail: the session is back in
the choose-lineage stage with `chosen_lineage` still set — the claimed
invariant (`chosenLineage` non-empty only in Dialogue/FinalSummary) is
violated by the error recovery, which does not clear the field. -/
theorem C3_invariant_cex :
    Reachable (dialogueEntry (selectLineage (chooseLineageEntry (submitTopic initSession
      "grief").1 (some "**Stoicism**: Focus.")).1 "Stoicism") none none) ∧
    (dialogueEntry (selectLineage (chooseLineageEntry (submitTopic initSession
      "grief").1 (some "**Stoicism**: Focus.")).1 "Stoicism") none none).stage =
      Stage.choose_lineage ∧
    (dialogueEntry (selectLineage (chooseLineageEntry (submitTopic initSession
      "grief").1 (some "**Stoicism**: Focus.")).1 "Stoicism") none none).chosen_lineage =
      some "Stoicism" ∧
    Stage.choose_lineage ≠ Stage.dialogue ∧ Stage.choose_lineage ≠ Stage.final_summary := by
  refine ⟨?_, by decide, by decide, by decide, by decide⟩
  exact Reachable.dlg_entry _ none none
    (Reachable.select _ "Stoicism" "Focus."
      (Reachable.lineage_entry _ _
        (Reachable.submit _ "grief" Reachable.init rfl) (by decide))
      (by decide) (by decide))
    (by decide) (by decide)

/-- Claim C3 (amended): the invariant that survives the guide-selection
failure recovery is weaker than claimed: in every reachable state,
`chosen_lineage` is unset whenever the stage is Start (it can be set in
ChooseLineage, after the recovery returns there without clearing it). -/
theorem C3_lineage_not_in_start (s : Session) (hr : Reachable s)
    (hst : s.stage = Stage.start) : s.chosen_lineage = none := by
  induction hr with
  | init => rfl
  | restart s hr ih => rfl
  | start_render s typed hr hstage ih =>
    have hcl : (startRender s typed).chosen_lineage = s.chosen_lineage := rfl
    rw [hcl]
    exact ih hstage
  | final_entry s resp hr hstage ih =>
    rw [(finalSummaryEntry_fields s resp).1, hstage] at hst
    exact absurd hst (by decide)
  | submit s topic hr hstage ih =>
    have hcl : (submitTopic s topic).1.chosen_lineage = s.chosen_lineage := by
      by_cases ht : topic = "" <;> simp [submitTopic, ht]
    rw [hcl]
    exact ih hstage
  | lineage_entry s resp hr hstage ih =>
    rw [(chooseLineageEntry_fields s resp).1, hstage] at hst
    exact absurd hst (by decide)
  | select s name summary hr hstage hmem ih =>
    have : (selectLineage s name).stage = Stage.dialogue := rfl
    rw [this] at hst
    exact absurd hst (by decide)
  | dlg_entry s mr fq hr hstage hds ih =>
    rcases dialogueEntry_stage s mr fq hds with h | h <;> rw [h] at hst
    · rw [hstage] at hst
      exact absurd hst (by decide)
    · exact absurd hst (by decide)
  | reflect s u resp hr hstage hds ih =>
    rcases submitReflection_stage_cases s u resp with h | h <;> rw [h] at hst
    · rw [hstage] at hst
      exact absurd hst (by decide)
    · exact absurd hst (by decide)

/-- Claim C3, witness for the amended theorem at the initial session. -/
theorem C3_lineage_not_in_start_witness : Session.chosen_lineage initSession = none :=
  C3_lineage_not_in_start initSession Reachable.init rfl

/-- Claim C4, counterexample: on a text whose places heading is missing,
the source's placeholder is `"No recommendations found."`, not the
claimed `"No specific recommendations found."`, and the books section is
NOT recovered (its pattern needs the places heading as lookahead): it is
the placeholder too. -/
theorem C4_placeholder_cex :
    parse_discover_more
      "### 📚 Books to Read\n1. A Book\n### 🎧 Music to Listen To\n1. A Song" =
      [("books", "No recommendations found."), ("places", "No recommendations found."),
        ("music", "1. A Song")] ∧
    ("No recommendations found." : String) ≠ "No specific recommendations found." ∧
    ("No recommendations found." : String) ≠ "1. A Book" := by
  decide

/-- Claim C4 (amended): on well-formed three-section text,
`parse_discover_more` recovers the three sections verbatim (trimmed); on
text missing the places heading, the places section is the literal
placeholder `"No recommendations found."`, the books section is ALSO that
placeholder (its regex requires the places heading as right delimiter),
and the music section is still recovered (trimmed). -/
theorem C4_discover_more_sections (b p m bb mm : String)
    (hb : ∀ a ∈ b.data, ¬ a = '#') (hp : ∀ a ∈ p.data, ¬ a = '#')
    (hm : ∀ a ∈ m.data, ¬ a = '#')
    (hbb : ∀ a ∈ bb.data, ¬ a = '#') (hm2 : ∀ a ∈ mm.data, ¬ a = '#') :
    parse_discover_more (wfDiscover b p m) =
      [("books", String.mk (pyStrip b.data)), ("places", String.mk (pyStrip p.data)),
        ("music", String.mk (pyStrip m.data))] ∧
    parse_discover_more (wfDiscoverNoPlaces bb mm) =
      [("books", "No recommendations found."), ("places", "No recommendations found."),
        ("music", String.mk (pyStrip mm.data))] :=
  ⟨discover_wf_parse b p m hb hp hm, discover_no_places_parse bb mm hbb hm2⟩

/-- Claim C4, witness for the amended theorem at concrete sections. -/
theorem C4_discover_more_sections_witness :
    parse_discover_more (wfDiscover " 1. B " "2. P" "3. M") =
      [("books", "1. B"), ("places", "2. P"), ("music", "3. M")] ∧
    parse_discover_more (wfDiscoverNoPlaces "1. A Book" "1. A Song") =
      [("books", "No recommendations found."), ("places", "No recommendations found."),
        ("music", "1. A Song")] := by
  have h := C4_discover_more_sections " 1. B " "2. P" "3. M" "1. A Book" "1. A Song"
    (by decide) (by decide) (by decide) (by decide) (by decide)
  refine ⟨?_, ?_⟩
  · rw [h.1]
    decide
  · rw [h.2]
    decide

/-- Claim C5, counterexample: a whitespace-only topic is truthy in the
source (`if st.session_state.vritti:` only tests emptiness), so
`submitTopic " "` leaves Start and transitions to ChooseLineage instead of
staying with a validation notice. -/
theorem C5_whitespace_topic_cex :
    initSession.stage = Stage.start ∧
    (submitTopic initSession " ").1.stage = Stage.choose_lineage ∧
    (submitTopic initSession " ").2 = false ∧
    Stage.choose_lineage ≠ Stage.start := by
  decide

/-- Claim C5 (amended): only the EMPTY topic keeps the session in Start
with a validation notice; every non-empty topic — including
whitespace-only ones — transitions Start to ChooseLineage with the topic
stored verbatim (no trimming). -/
theorem C5_submit_topic (s : Session) (topic : String) (hst : s.stage = Stage.start) :
    (topic = "" → (submitTopic s topic).1.stage = Stage.start ∧
      (submitTopic s topic).2 = true) ∧
    (¬ topic = "" → (submitTopic s topic).1.stage = Stage.choose_lineage ∧
      (submitTopic s topic).1.vritti = some topic ∧ (submitTopic s topic).2 = false) := by
  constructor
  · intro h
    constructor <;> simp [submitTopic, h, hst]
  · intro h
    refine ⟨?_, ?_, ?_⟩ <;> simp [submitTopic, h]

/-- Claim C5, witness for the amended theorem on both branches. -/
theorem C5_submit_topic_witness :
    ((submitTopic initSession "").1.stage = Stage.start ∧
      (submitTopic initSession "").2 = true) ∧
    ((submitTopic initSession "fear of failure").1.stage = Stage.choose_lineage ∧
      (submitTopic initSession "fear of failure").1.vritti = some "fear of failure" ∧
      (submitTopic initSession "fear of failure").2 = false) :=
  ⟨(C5_submit_topic initSession "" rfl).1 rfl,
    (C5_submit_topic initSession "fear of failure" rfl).2 (by decide)⟩

/-- Claim C6, counterexample: a reachable choose-lineage session that
still carries dialogue state (a half-initialised dialogue whose first
question failed, followed by a failing guide call that regressed the
stage) keeps its old `messages` and `chosen_master` after the user selects
a lineage — the handler does not clear previous dialogue state. -/
theorem C6_select_no_clear_cex :
    Reachable (dialogueEntry (dialogueEntry (selectLineage (chooseLineageEntry
      (submitTopic initSession "grief").1 (some "**Stoicism**: Focus.")).1 "Stoicism")
      (some "Seneca") none) none none) ∧
    (dialogueEntry (dialogueEntry (selectLineage (chooseLineageEntry
      (submitTopic initSession "grief").1 (some "**Stoicism**: Focus.")).1 "Stoicism")
      (some "Seneca") none) none none).stage = Stage.choose_lineage ∧
    (selectLineage (dialogueEntry (dialogueEntry (selectLineage (chooseLineageEntry
      (submitTopic initSession "grief").1 (some "**Stoicism**: Focus.")).1 "Stoicism")
      (some "Seneca") none) none none) "Stoicism").stage = Stage.dialogue ∧
    (selectLineage (dialogueEntry (dialogueEntry (selectLineage (chooseLineageEntry
      (submitTopic initSession "grief").1 (some "**Stoicism**: Focus.")).1 "Stoicism")
      (some "Seneca") none) none none) "Stoicism").messages ≠ none ∧
    (selectLineage (dialogueEntry (dialogueEntry (selectLineage (chooseLineageEntry
      (submitTopic initSession "grief").1 (some "**Stoicism**: Focus.")).1 "Stoicism")
      (some "Seneca") none) none none) "Stoicism").chosen_master ≠ none := by
  refine ⟨?_, by decide, by decide, by decide, by decide⟩
  exact Reachable.dlg_entry _ none none
    (Reachable.dlg_entry _ (some "Seneca") none
      (Reachable.select _ "Stoicism" "Focus."
        (Reachable.lineage_entry _ _
          (Reachable.submit _ "grief" Reachable.init rfl) (by decide))
        (by decide) (by decide))
      (by decide) (by decide))
    (by decide) (by decide)

/-- Claim C6 (amended): selecting a lineage sets `chosen_lineage` to the
clicked name and moves the stage to Dialogue, leaving EVERY other session
field — including `messages` and `chosen_master` — unchanged; previous
dialogue state is not cleared at selection (it is only overwritten later
by a successful dialogue initialisation). -/
theorem C6_select_lineage_effect (s : Session) (name : String) :
    (selectLineage s name).chosen_lineage = some name ∧
    (selectLineage s name).stage = Stage.dialogue ∧
    (selectLineage s name).messages = s.messages ∧
    (selectLineage s name).chosen_master = s.chosen_master ∧
    (selectLineage s name).vritti = s.vritti ∧
    (selectLineage s name).lineages = s.lineages ∧
    (selectLineage s name).dialogue_started = s.dialogue_started ∧
    (selectLineage s name).final_summary = s.final_summary ∧
    (selectLineage s name).discover_more_content = s.discover_more_content :=
  ⟨rfl, rfl, rfl, rfl, rfl, rfl, rfl, rfl, rfl⟩

/-- Claim C7: round trip of the lineage parser. For a mapping with
distinct names, parsing the text built in the documented
bold-heading-colon-summary format recovers exactly the mapping, in order,
nothing lost or invented; and in general (duplicate names allowed in the
built text), parsing yields the dict-comprehension result, in which a
duplicate name overwrites the earlier entry's value while keeping its
position. -/
theorem C7_parse_lineages_round_trip :
    (∀ M : List (String × String), (∀ p ∈ M, goodPair p) →
      M.Pairwise (fun a b => a.1 ≠ b.1) →
      parse_lineage_summaries (buildLineageText M) = M) ∧
    (∀ L : List (String × String), (∀ p ∈ L, goodPair p) →
      parse_lineage_summaries (buildLineageText L) = toDict L) :=
  ⟨fun M hg hk => by rw [parse_build M hg, toDict_of_pairwise M hk],
    fun L hg => parse_build L hg⟩

/-- Claim C7, witness at the spec's own two-entry example mapping, and a
duplicate-name example showing the overwrite. -/
theorem C7_parse_lineages_round_trip_witness :
    parse_lineage_summaries (buildLineageText
      [("Stoicism", "Focus on what you control."),
        ("Buddhism", "Observe attachment to outcomes.")]) =
      [("Stoicism", "Focus on what you control."),
        ("Buddhism", "Observe attachment to outcomes.")] ∧
    parse_lineage_summaries (buildLineageText
      [("Zen", "First."), ("Zen", "Second.")]) = [("Zen", "Second.")] := by
  constructor
  · exact C7_parse_lineages_round_trip.1 _ (by decide) (by decide)
  · rw [C7_parse_lineages_round_trip.2 _ (by decide)]
    decide

/-- Claim C8: the parsers are total functions (the embedding is
exception-free by construction) returning empty or incomplete results on
malformed input: the empty string and any text without a bold heading
parse to the empty mapping, and `parse_discover_more` always returns
either the empty record or a record with exactly the three section keys. -/
theorem C8_parsers_total :
    parse_lineage_summaries "" = [] ∧
    (∀ s : String, (∀ a ∈ s.data, ¬ a = '*') → parse_lineage_summaries s = []) ∧
    (∀ s : String, parse_discover_more s = [] ∨
      ∃ b p m, parse_discover_more s = [("books", b), ("places", p), ("music", m)]) := by
  refine ⟨rfl, fun s h => parse_lineage_no_star s h, fun s => ?_⟩
  by_cases h : s = ""
  · left
    rw [h]
    rfl
  · right
    rw [parse_discover_more_elim _ h]
    exact ⟨_, _, _, rfl⟩

/-- Claim C8, witness at concrete malformed inputs. -/
theorem C8_parsers_total_witness :
    parse_lineage_summaries "just some prose, no headings" = [] ∧
    (parse_discover_more "x" = [] ∨
      ∃ b p m, parse_discover_more "x" = [("books", b), ("places", p), ("music", m)]) :=
  ⟨C8_parsers_total.2.1 "just some prose, no headings" (by decide),
    C8_parsers_total.2.2 "x"⟩

/-- Claim C9: restarting from any session state yields exactly the freshly
constructed session: stage Start and every other field unset. -/
theorem C9_restart_resets (s : Session) : restart_app s = initSession := rfl

/-- Claim C10: `parse_discover_more` on the empty string returns the empty
record — no section keys at all, not placeholder sections; placeholders
only arise from a non-empty input whose headings are missing (here: any
non-empty text containing no `#`). -/
theorem C10_empty_discover (s : String) :
    parse_discover_more "" = [] ∧
    (¬ s = "" → (∀ a ∈ s.data, ¬ a = '#') →
      parse_discover_more s =
        [("books", "No recommendations found."), ("places", "No recommendations found."),
          ("music", "No recommendations found.")]) :=
  ⟨rfl, fun h0 h => discover_hashfree_parse s h0 h⟩

/-- Claim C10, witness at a concrete heading-free input. -/
theorem C10_empty_discover_witness :
    parse_discover_more "plain text" =
      [("books", "No recommendations found."), ("places", "No recommendations found."),
        ("music", "No recommendations found.")] :=
  (C10_empty_discover "plain text").2 (by decide) (by decide)
